import Mathlib

/-!
Verification development for the wxpay client library.

The Go sources (`account.go`, `client.go`) are shallowly embedded below:
parameter maps become association lists with unique keys, byte strings
become `List Nat` (each element < 256), the MD5 / HMAC-SHA256 digests are
implemented over `Nat` arithmetic with explicit reduction mod 2^32, and
the effectful transport paths are modelled as pure request descriptors.
-/

set_option maxRecDepth 200000

/-! ## 32-bit words as `Nat` with explicit wrap-around -/

def mask32 : Nat := 4294967295

def add32 (a b : Nat) : Nat := (a + b) % 4294967296

def not32 (a : Nat) : Nat := mask32 ^^^ a

def rotl32 (x s : Nat) : Nat := ((x <<< s) ||| (x >>> (32 - s))) &&& mask32

def rotr32 (x s : Nat) : Nat := ((x >>> s) ||| (x <<< (32 - s))) &&& mask32

def u64LE (n : Nat) : List Nat := (List.range 8).map (fun j => (n >>> (8 * j)) &&& 255)

def u64BE (n : Nat) : List Nat := ((List.range 8).map (fun j => (n >>> (8 * j)) &&& 255)).reverse

def u32LE (n : Nat) : List Nat := (List.range 4).map (fun j => (n >>> (8 * j)) &&& 255)

def u32BE (n : Nat) : List Nat := ((List.range 4).map (fun j => (n >>> (8 * j)) &&& 255)).reverse

def bytesToWordsLE : List Nat → List Nat
  | b0 :: b1 :: b2 :: b3 :: rest =>
      (b0 ||| (b1 <<< 8) ||| (b2 <<< 16) ||| (b3 <<< 24)) :: bytesToWordsLE rest
  | _ => []

def bytesToWordsBE : List Nat → List Nat
  | b0 :: b1 :: b2 :: b3 :: rest =>
      ((b0 <<< 24) ||| (b1 <<< 16) ||| (b2 <<< 8) ||| b3) :: bytesToWordsBE rest
  | _ => []

/-- Merkle–Damgård padding tail shared by MD5 and SHA-256: a 0x80 byte,
zeros up to 56 mod 64, then the 8-byte encoded bit length. -/
def padTail (len : Nat) (lenBytes : List Nat) : List Nat :=
  128 :: List.replicate ((119 - len % 64) % 64) 0 ++ lenBytes

def blocksOf64 (msg : List Nat) : List (List Nat) :=
  (List.range (msg.length / 64)).map (fun i => (msg.drop (64 * i)).take 64)

/-! ## MD5 (as used by Go `crypto/md5` in `Client.Sign`) -/

def md5K : List Nat :=
  [0xd76aa478, 0xe8c7b756, 0x242070db, 0xc1bdceee,
   0xf57c0faf, 0x4787c62a, 0xa8304613, 0xfd469501,
   0x698098d8, 0x8b44f7af, 0xffff5bb1, 0x895cd7be,
   0x6b901122, 0xfd987193, 0xa679438e, 0x49b40821,
   0xf61e2562, 0xc040b340, 0x265e5a51, 0xe9b6c7aa,
   0xd62f105d, 0x02441453, 0xd8a1e681, 0xe7d3fbc8,
   0x21e1cde6, 0xc33707d6, 0xf4d50d87, 0x455a14ed,
   0xa9e3e905, 0xfcefa3f8, 0x676f02d9, 0x8d2a4c8a,
   0xfffa3942, 0x8771f681, 0x6d9d6122, 0xfde5380c,
   0xa4beea44, 0x4bdecfa9, 0xf6bb4b60, 0xbebfbc70,
   0x289b7ec6, 0xeaa127fa, 0xd4ef3085, 0x04881d05,
   0xd9d4d039, 0xe6db99e5, 0x1fa27cf8, 0xc4ac5665,
   0xf4292244, 0x432aff97, 0xab9423a7, 0xfc93a039,
   0x655b59c3, 0x8f0ccc92, 0xffeff47d, 0x85845dd1,
   0x6fa87e4f, 0xfe2ce6e0, 0xa3014314, 0x4e0811a1,
   0xf7537e82, 0xbd3af235, 0x2ad7d2bb, 0xeb86d391]

def md5S : List Nat :=
  [7, 12, 17, 22, 7, 12, 17, 22, 7, 12, 17, 22, 7, 12, 17, 22,
   5, 9, 14, 20, 5, 9, 14, 20, 5, 9, 14, 20, 5, 9, 14, 20,
   4, 11, 16, 23, 4, 11, 16, 23, 4, 11, 16, 23, 4, 11, 16, 23,
   6, 10, 15, 21, 6, 10, 15, 21, 6, 10, 15, 21, 6, 10, 15, 21]

def md5Round (M : List Nat) (st : Nat × Nat × Nat × Nat) (i : Nat) : Nat × Nat × Nat × Nat :=
  let a := st.1
  let b := st.2.1
  let c := st.2.2.1
  let d := st.2.2.2
  let fg : Nat × Nat :=
    if i < 16 then ((b &&& c) ||| (not32 b &&& d), i)
    else if i < 32 then ((d &&& b) ||| (not32 d &&& c), (5 * i + 1) % 16)
    else if i < 48 then (b ^^^ c ^^^ d, (3 * i + 5) % 16)
    else (c ^^^ (b ||| not32 d), (7 * i) % 16)
  let f := add32 (add32 (add32 fg.1 a) (md5K.getD i 0)) (M.getD fg.2 0)
  (d, add32 b (rotl32 f (md5S.getD i 0)), b, c)

def md5Block (st : Nat × Nat × Nat × Nat) (block : List Nat) : Nat × Nat × Nat × Nat :=
  let M := bytesToWordsLE block
  let r := (List.range 64).foldl (md5Round M) st
  (add32 st.1 r.1, add32 st.2.1 r.2.1, add32 st.2.2.1 r.2.2.1, add32 st.2.2.2 r.2.2.2)

/-- MD5 digest of a byte sequence (16 output bytes). -/
def md5Bytes (msg : List Nat) : List Nat :=
  let padded := msg ++ padTail msg.length (u64LE ((msg.length * 8) % 18446744073709551616))
  let st := (blocksOf64 padded).foldl md5Block (0x67452301, 0xefcdab89, 0x98badcfe, 0x10325476)
  u32LE st.1 ++ u32LE st.2.1 ++ u32LE st.2.2.1 ++ u32LE st.2.2.2

/-! ## SHA-256 and HMAC (Go `crypto/sha256`, `crypto/hmac`) -/

def sha256K : List Nat :=
  [1116352408, 1899447441, 3049323471, 3921009573, 961987163,
   1508970993, 2453635748, 2870763221, 3624381080, 310598401,
   607225278, 1426881987, 1925078388, 2162078206, 2614888103,
   3248222580, 3835390401, 4022224774, 264347078, 604807628,
   770255983, 1249150122, 1555081692, 1996064986, 2554220882,
   2821834349, 2952996808, 3210313671, 3336571891, 3584528711,
   113926993, 338241895, 666307205, 773529912, 1294757372,
   1396182291, 1695183700, 1986661051, 2177026350, 2456956037,
   2730485921, 2820302411, 3259730800, 3345764771, 3516065817,
   3600352804, 4094571909, 275423344, 430227734, 506948616,
   659060556, 883997877, 958139571, 1322822218, 1537002063,
   1747873779, 1955562222, 2024104815, 2227730452, 2361852424,
   2428436474, 2756734187, 3204031479, 3329325298]

def schedSigma0 (x : Nat) : Nat := rotr32 x 7 ^^^ rotr32 x 18 ^^^ (x >>> 3)

def schedSigma1 (x : Nat) : Nat := rotr32 x 17 ^^^ rotr32 x 19 ^^^ (x >>> 10)

def roundSigma0 (x : Nat) : Nat := rotr32 x 2 ^^^ rotr32 x 13 ^^^ rotr32 x 22

def roundSigma1 (x : Nat) : Nat := rotr32 x 6 ^^^ rotr32 x 11 ^^^ rotr32 x 25

def sha256Schedule (w16 : List Nat) : List Nat :=
  (List.range 48).foldl (fun w i =>
    w ++ [add32 (add32 (w.getD i 0) (schedSigma0 (w.getD (i + 1) 0)))
            (add32 (w.getD (i + 9) 0) (schedSigma1 (w.getD (i + 14) 0)))]) w16

def sha256Round (W : List Nat) (st : List Nat) (i : Nat) : List Nat :=
  match st with
  | [a, b, c, d, e, f, g, h] =>
    let t1 := add32 (add32 (add32 h (roundSigma1 e))
      (add32 ((e &&& f) ^^^ (not32 e &&& g)) (sha256K.getD i 0))) (W.getD i 0)
    let t2 := add32 (roundSigma0 a) ((a &&& b) ^^^ (a &&& c) ^^^ (b &&& c))
    [add32 t1 t2, a, b, c, add32 d t1, e, f, g]
  | other => other

def sha256Block (st : List Nat) (block : List Nat) : List Nat :=
  let W := sha256Schedule (bytesToWordsBE block)
  let r := (List.range 64).foldl (sha256Round W) st
  List.zipWith add32 st r

/-- SHA-256 digest of a byte sequence (32 output bytes). -/
def sha256Bytes (msg : List Nat) : List Nat :=
  let padded := msg ++ padTail msg.length (u64BE ((msg.length * 8) % 18446744073709551616))
  let st := (blocksOf64 padded).foldl sha256Block
    [1779033703, 3144134277, 1013904242, 2773480762,
     1359893119, 2600822924, 528734635, 1541459225]
  (st.map u32BE).flatten

/-- HMAC-SHA256 with the given key, exactly as `hmac.New(sha256.New, key)`. -/
def hmacSha256 (key msg : List Nat) : List Nat :=
  let k0 := if key.length > 64 then sha256Bytes key else key
  let k := k0 ++ List.replicate (64 - k0.length) 0
  sha256Bytes ((k.map (fun b => b ^^^ 0x5c)) ++ sha256Bytes ((k.map (fun b => b ^^^ 0x36)) ++ msg))

/-! ## Strings as byte sequences -/

def utf8EncodeChar (c : Char) : List Nat :=
  let n := c.toNat
  if n < 0x80 then [n]
  else if n < 0x800 then [0xc0 ||| (n >>> 6), 0x80 ||| (n &&& 0x3f)]
  else if n < 0x10000 then
    [0xe0 ||| (n >>> 12), 0x80 ||| ((n >>> 6) &&& 0x3f), 0x80 ||| (n &&& 0x3f)]
  else
    [0xf0 ||| (n >>> 18), 0x80 ||| ((n >>> 12) &&& 0x3f), 0x80 ||| ((n >>> 6) &&& 0x3f),
     0x80 ||| (n &&& 0x3f)]

/-- UTF-8 bytes of a string; Go strings are exactly these byte sequences. -/
def strBytes (s : String) : List Nat := (s.data.map utf8EncodeChar).flatten

/-- Lowercase hex digit for a value below 16, as `encoding/hex` produces. -/
def hexDigit (n : Nat) : Char := if n < 10 then Char.ofNat (48 + n) else Char.ofNat (87 + n)

/-- Lowercase hex encoding of a byte sequence (`hex.EncodeToString`). -/
def hexEncode (bs : List Nat) : String :=
  ⟨(bs.map (fun b => [hexDigit (b / 16), hexDigit (b % 16)])).flatten⟩

/-- ASCII upper-casing; agrees with Go `strings.ToUpper` on the ASCII hex
strings produced by signing (hex digits and empty strings only). -/
def asciiUpper (s : String) : String := ⟨s.data.map Char.toUpper⟩

/-- ASCII lower-casing; agrees with Go `strings.ToLower` on ASCII hex. -/
def asciiLower (s : String) : String := ⟨s.data.map Char.toLower⟩

/-! ## Byte-wise lexicographic order on strings (Go `sort.Strings`) -/

def bytesLe : List Nat → List Nat → Bool
  | [], _ => true
  | _ :: _, [] => false
  | a :: as, b :: bs => if a < b then true else if b < a then false else bytesLe as bs

/-- Byte-wise lexicographic order on strings, the order `sort.Strings` uses. -/
def strLe (a b : String) : Prop := bytesLe (strBytes a) (strBytes b) = true

instance : DecidableRel strLe := fun a b => by unfold strLe; infer_instance

/-- Sorting a list of keys in ascending byte-wise lexicographic order,
the effect of `sort.Strings(keys)` (order total and antisymmetric on the
distinct keys of a map, so the sorted list is uniquely determined). -/
def sortStrings (l : List String) : List String := List.insertionSort strLe l

/-! ## ParameterSet -/

/-- Modelled from the spec: a ParameterSet is a mapping from string key to
string value with unique keys (the `Params` map type of the repository is
declared outside `src/`; only its use in `client.go` is available).
Embedded as an association list; well-formed values have pairwise distinct
keys, matching a Go map. -/
abbrev Params := List (String × String)

namespace Params

/-- Modelled from the spec: map lookup; a missing key reads as the empty
string, as a Go string-valued map read does. -/
def GetString : Params → String → String
  | [], _ => ""
  | (k1, v1) :: t, k => if k1 = k then v1 else GetString t k

/-- Modelled from the spec: key-membership test of the mapping. -/
def ContainsKey : Params → String → Bool
  | [], _ => false
  | (k1, _) :: t, k => k1 == k || ContainsKey t k

/-- Modelled from the spec: map store `p[k] = v`; replaces the binding of
an existing key in place, otherwise adds a new binding. -/
def SetString (p : Params) (k v : String) : Params :=
  if p.ContainsKey k then p.map (fun kv => if kv.1 = k then (k, v) else kv)
  else p ++ [(k, v)]

/-- Well-formedness of an association list as a map: distinct keys. -/
def WF (p : Params) : Prop := (p.map Prod.fst).Nodup

end Params

/-! ## Constants (the repository's constants file is not under `src/`) -/

/-- Modelled from the spec: selector value for the 128-bit digest variant
(keyed-digest-A) of the signature algorithm. -/
def MD5 : String := "MD5"

/-- Modelled from the spec: selector value for the HMAC 256-bit digest
variant (keyed-digest-B) of the signature algorithm. -/
def HMACSHA256 : String := "HMAC-SHA256"

/-- Modelled from the spec: the reserved signature-field key; `client.go`
line 137 filters the literal string `sign`, so the constant `Sign` used by
`ValidSign` must denote the same key (named `SignKey` here because `Sign`
is the embedded signing function). -/
def SignKey : String := "sign"

/-- Modelled from the spec: the success status value of `return_code`. -/
def Success : String := "SUCCESS"

/-- Modelled from the spec: the failure status value of `return_code`. -/
def Fail : String := "FAIL"

/-- Modelled from the spec: the request-kind flag selecting the
merchant-to-wallet field schema in `fillRequestData`. -/
def MchToCashTp : String := "mchToCash"

/-! ## Account (`account.go`) and Client (`client.go`) -/

structure Account where
  appID : String
  mchID : String
  apiKey : String
  certData : Option (List Nat)
  isSandbox : Bool

/-- `NewAccount`: certificate material starts out absent (nil slice). -/
def NewAccount (appID mchID apiKey : String) (isSanbox : Bool) : Account :=
  { appID := appID, mchID := mchID, apiKey := apiKey, certData := none, isSandbox := isSanbox }

/-- `SetCertData` (mutation embedded as a functional update). -/
def Account.SetCertData (a : Account) (certData : List Nat) : Account :=
  { a with certData := some certData }

structure Client where
  account : Account
  signType : String
  httpConnectTimeoutMs : Int
  httpReadTimeoutMs : Int

def NewClient (account : Account) : Client :=
  { account := account, signType := MD5, httpConnectTimeoutMs := 2000, httpReadTimeoutMs := 1000 }

def Client.SetSignType (c : Client) (signType : String) : Client :=
  { c with signType := signType }

def Client.SetAccount (c : Client) (account : Account) : Client :=
  { c with account := account }

/-- Canonical byte string built inside `Sign` (`client.go` lines 134-157):
all keys except `sign`, sorted, rendered as `k=v&` for non-empty values
only, then `key=` and the API key. -/
def Client.canonical (c : Client) (params : Params) : String :=
  let keys := sortStrings ((params.map Prod.fst).filter (fun k => k != "sign"))
  let buf := keys.foldl (fun buf k =>
      if (params.GetString k).length > 0 then buf ++ k ++ "=" ++ params.GetString k ++ "&"
      else buf) ""
  buf ++ "key=" ++ c.account.apiKey

/-- `Sign` (`client.go` lines 132-177): digest of the canonical form, MD5
or HMAC-SHA256 keyed by the API key depending on `signType` (any other
selector leaves the hex string empty), upper-cased. -/
def Client.Sign (c : Client) (params : Params) : String :=
  let buf := c.canonical params
  let str :=
    if c.signType = MD5 then hexEncode (md5Bytes (strBytes buf))
    else if c.signType = HMACSHA256 then
      hexEncode (hmacSha256 (strBytes c.account.apiKey) (strBytes buf))
    else ""
  asciiUpper str

/-- `ValidSign` (`client.go` lines 124-129). -/
def Client.ValidSign (c : Client) (params : Params) : Bool :=
  if !(params.ContainsKey SignKey) then false
  else params.GetString SignKey == c.Sign params

/-- `fillRequestData` (`client.go` lines 56-68). Modelled from the spec:
the fresh random nonce produced by `nonceStr()` (declared outside `src/`)
is passed in as the `nonce` argument. -/
def Client.fillRequestData (c : Client) (nonce : String) (params : Params)
    (payTp : List String) : Params :=
  let p1 :=
    if payTp.length = 1 ∧ payTp.headD "" = MchToCashTp then
      (params.SetString "mch_appid" c.account.appID).SetString "mchid" c.account.mchID
    else
      ((params.SetString "appid" c.account.appID).SetString "mch_id"
        c.account.mchID).SetString "sign_type" c.signType
  let p2 := p1.SetString "nonce_str" nonce
  p2.SetString "sign" (c.Sign p2)

/-- `processResponseXml` (`client.go` lines 181-203). Modelled from the
spec: the XML-to-map codec (`XmlToMap`, declared outside `src/`) is the
given lossless serialization primitive, so the function is embedded over
the decoded map it produces. -/
def Client.processResponseXml (c : Client) (decoded : Params) (flags : List Bool) :
    Except String Params :=
  if decoded.ContainsKey "return_code" then
    let returnCode := decoded.GetString "return_code"
    if returnCode = Fail then Except.ok decoded
    else if returnCode = Success then
      if flags = [false] then Except.ok decoded
      else if c.ValidSign decoded then Except.ok decoded
      else Except.error "invalid sign value in XML"
    else Except.error "return_code value is invalid in XML"
  else Except.error "no return_code in XML"

def exceptIsError : Except String Params → Bool
  | Except.error _ => true
  | Except.ok _ => false

/-- Outcome of an HTTP POST attempt. Modelled from the spec: the transport
layer is an external collaborator, so a successful path is recorded as a
request descriptor (URL and the filled params that would be serialized and
sent) rather than performed. -/
inductive HttpAttempt where
  | failed (errMsg : String)
  | request (url : String) (filled : Params)
deriving DecidableEq

/-- `postWithCert` up to the point of network I/O (`client.go` lines
87-104): nil certificate material fails immediately, before the params are
touched and before any request is built. -/
def Client.postWithCertStep (c : Client) (url : String) (params : Params) (nonce : String)
    (payTp : List String) : HttpAttempt :=
  if c.account.certData = none then HttpAttempt.failed "证书数据为空"
  else HttpAttempt.request url (c.fillRequestData nonce params payTp)

/-- First byte is the XML open angle bracket: `strings.Index(s, "<") == 0`. -/
def startsWithLt (s : String) : Bool :=
  match s.data with
  | [] => false
  | c :: _ => c == '<'

/-- Response handling of `DownloadBill` (`client.go` lines 320-331), as a
function of the raw POST body and error. Modelled from the spec: the
XML-to-map codec is passed in as the given primitive `xmlToMap`, and the
POST result is passed in as `xmlStr`/`err`. -/
def Client.downloadBillHandle (c : Client) (xmlToMap : String → Params) (xmlStr : String)
    (err : Option String) : Params × Option String :=
  if startsWithLt xmlStr then (xmlToMap xmlStr, err)
  else
    ((((Params.SetString [] "return_code" Success).SetString "return_msg"
      "ok").SetString "data" xmlStr, err))

/-- Response handling of `DownloadFundFlow` (`client.go` lines 343-354);
textually identical to the `DownloadBill` branch. -/
def Client.downloadFundFlowHandle (c : Client) (xmlToMap : String → Params) (xmlStr : String)
    (err : Option String) : Params × Option String :=
  if startsWithLt xmlStr then (xmlToMap xmlStr, err)
  else
    ((((Params.SetString [] "return_code" Success).SetString "return_msg"
      "ok").SetString "data" xmlStr, err))

/-- Canonicalization as the specification words it: sorted non-`sign`
keys, the non-empty-valued ones rendered `k=v`, joined by `&`, ending in a
final `key=<secret>` segment with no trailing separator. -/
def joinAmp : List String → String
  | [] => ""
  | [s] => s
  | s :: t :: rest => s ++ "&" ++ joinAmp (t :: rest)

def canonicalSpec (apiKey : String) (params : Params) : String :=
  let keys := sortStrings ((params.map Prod.fst).filter (fun k => k != "sign"))
  joinAmp (((keys.filter (fun k => params.GetString k != "")).map
    (fun k => k ++ "=" ++ params.GetString k)) ++ ["key=" ++ apiKey])

/-! ## Concrete fixtures used by witnesses and counterexamples -/

def wClient : Client := NewClient (NewAccount "wxappid" "10000100" "testkey" false)

def wBadClient : Client := (NewClient (NewAccount "a" "m" "k" false)).SetSignType "SHA1"

def c4Client : Client := NewClient (NewAccount "wx1" "m1" "k" false)

def c7Codec : String → Params := fun _ => [("return_code", Fail)]

def c3FailMap : Params := [("return_code", "FAIL"), ("return_msg", "SYSTEMERROR")]


example : hexEncode (md5Bytes (strBytes "abc")) = "900150983cd24fb0d6963f7d28e17f72" := by decide

example : hexEncode (sha256Bytes (strBytes "abc")) =
    "ba7816bf8f01cfea414140de5dae2223b00361a396177a9cb410ff61f20015ad" := by decide

example : hexEncode (hmacSha256 (strBytes "key")
    (strBytes "The quick brown fox jumps over the lazy dog")) =
    "f7bc83f430538424b13298e6aa6fb143ef4d59a14946175997479dbc2d1a3cd8" := by decide

example : (NewClient (NewAccount "x" "y" "k" false)).canonical [("a", "1"), ("b", "")] =
    "a=1&key=k" := by decide

example : (NewClient (NewAccount "x" "y" "testkey" false)).Sign
    [("out_trade_no", "123"), ("total_fee", "100")] =
    asciiUpper "61e662fef7f8a5a4bf98954aacca1a8e" := by decide

/-! ## Lemmas about the ParameterSet operations -/

namespace Params

theorem containsKey_cons (k1 v1 : String) (t : Params) (k : String) :
    ContainsKey ((k1, v1) :: t) k = (k1 == k || ContainsKey t k) := rfl

theorem getString_cons (k1 v1 : String) (t : Params) (k : String) :
    GetString ((k1, v1) :: t) k = if k1 = k then v1 else GetString t k := rfl

theorem containsKey_append (p q : Params) (k : String) :
    ContainsKey (p ++ q) k = (ContainsKey p k || ContainsKey q k) := by
  induction p with
  | nil => simp [ContainsKey]
  | cons hd t ih =>
    obtain ⟨k1, v1⟩ := hd
    simp only [List.cons_append, containsKey_cons, ih, Bool.or_assoc]

theorem containsKey_map_set (p : Params) (k v k2 : String) :
    ContainsKey (p.map (fun kv => if kv.1 = k then (k, v) else kv)) k2 = ContainsKey p k2 := by
  induction p with
  | nil => rfl
  | cons hd t ih =>
    obtain ⟨k1, v1⟩ := hd
    by_cases h : k1 = k
    · subst h
      simp only [List.map_cons, if_pos rfl, if_true, containsKey_cons, ih]
    · simp only [List.map_cons]
      rw [show (if (k1, v1).1 = k then (k, v) else (k1, v1)) = (k1, v1) from if_neg h]
      simp only [containsKey_cons, ih]

theorem containsKey_set_iff (p : Params) (k v k2 : String) :
    ContainsKey (SetString p k v) k2 = true ↔ (ContainsKey p k2 = true ∨ k2 = k) := by
  unfold SetString
  by_cases h : ContainsKey p k
  · rw [if_pos h, containsKey_map_set]
    constructor
    · exact Or.inl
    · rintro (h2 | rfl)
      · exact h2
      · exact h
  · rw [if_neg h, containsKey_append]
    simp only [containsKey_cons, ContainsKey, Bool.or_false, Bool.or_eq_true, beq_iff_eq]
    constructor
    · rintro (h2 | h2)
      · exact Or.inl h2
      · exact Or.inr h2.symm
    · rintro (h2 | rfl)
      · exact Or.inl h2
      · exact Or.inr rfl

theorem getString_append_of_not_contains (p q : Params) (k : String)
    (h : ContainsKey p k = false) : GetString (p ++ q) k = GetString q k := by
  induction p with
  | nil => rfl
  | cons hd t ih =>
    obtain ⟨k1, v1⟩ := hd
    rw [containsKey_cons] at h
    simp only [Bool.or_eq_false_iff, beq_eq_false_iff_ne] at h
    simp only [List.cons_append, getString_cons, if_neg h.1, ih h.2]

theorem getString_map_set_self (p : Params) (k v : String) (h : ContainsKey p k = true) :
    GetString (p.map (fun kv => if kv.1 = k then (k, v) else kv)) k = v := by
  induction p with
  | nil => simp [ContainsKey] at h
  | cons hd t ih =>
    obtain ⟨k1, v1⟩ := hd
    by_cases h1 : k1 = k
    · subst h1
      simp only [List.map_cons, if_pos rfl, if_true, getString_cons]
    · rw [containsKey_cons] at h
      simp only [Bool.or_eq_true, beq_iff_eq] at h
      rcases h with h | h
      · exact absurd h h1
      · simp only [List.map_cons]
        rw [show (if (k1, v1).1 = k then (k, v) else (k1, v1)) = (k1, v1) from if_neg h1]
        rw [getString_cons, if_neg h1, ih h]

theorem getString_set_self (p : Params) (k v : String) :
    GetString (SetString p k v) k = v := by
  unfold SetString
  by_cases h : ContainsKey p k
  · rw [if_pos h]
    exact getString_map_set_self p k v h
  · rw [if_neg h, getString_append_of_not_contains p _ k (by simpa using h)]
    simp [getString_cons]

theorem getString_map_set_other (p : Params) (k v k2 : String) (h : k2 ≠ k) :
    GetString (p.map (fun kv => if kv.1 = k then (k, v) else kv)) k2 = GetString p k2 := by
  induction p with
  | nil => rfl
  | cons hd t ih =>
    obtain ⟨k1, v1⟩ := hd
    by_cases h1 : k1 = k
    · subst h1
      have hne : ¬(k1 = k2) := fun hh => h hh.symm
      simp only [List.map_cons, if_pos rfl, if_true, getString_cons, if_neg hne, ih]
    · simp only [List.map_cons]
      rw [show (if (k1, v1).1 = k then (k, v) else (k1, v1)) = (k1, v1) from if_neg h1]
      rw [getString_cons, getString_cons, ih]

theorem getString_append_single_other (p : Params) (k v k2 : String) (h : k2 ≠ k) :
    GetString (p ++ [(k, v)]) k2 = GetString p k2 := by
  induction p with
  | nil =>
    have hne : ¬(k = k2) := fun hh => h hh.symm
    simp [getString_cons, if_neg hne, GetString]
  | cons hd t ih =>
    obtain ⟨k1, v1⟩ := hd
    simp only [List.cons_append, getString_cons, ih]

theorem getString_set_other (p : Params) (k v k2 : String) (h : k2 ≠ k) :
    GetString (SetString p k v) k2 = GetString p k2 := by
  unfold SetString
  by_cases hc : ContainsKey p k
  · rw [if_pos hc]
    exact getString_map_set_other p k v k2 h
  · rw [if_neg hc]
    exact getString_append_single_other p k v k2 h

theorem keys_map_set (p : Params) (k v : String) :
    (p.map (fun kv => if kv.1 = k then (k, v) else kv)).map Prod.fst = p.map Prod.fst := by
  induction p with
  | nil => rfl
  | cons hd t ih =>
    obtain ⟨k1, v1⟩ := hd
    by_cases h1 : k1 = k
    · subst h1
      simp only [List.map_cons, if_pos rfl, if_true, ih]
    · simp only [List.map_cons]
      rw [show (if (k1, v1).1 = k then (k, v) else (k1, v1)) = (k1, v1) from if_neg h1]
      rw [ih]

theorem keys_set (p : Params) (k v : String) :
    (SetString p k v).map Prod.fst =
      if ContainsKey p k then p.map Prod.fst else p.map Prod.fst ++ [k] := by
  unfold SetString
  by_cases h : ContainsKey p k
  · rw [if_pos h, if_pos h, keys_map_set]
  · rw [if_neg h, if_neg h, List.map_append]
    rfl

theorem contains_of_getString_ne (p : Params) (k : String) (h : GetString p k ≠ "") :
    ContainsKey p k = true := by
  induction p with
  | nil => exact absurd rfl h
  | cons hd t ih =>
    obtain ⟨k1, v1⟩ := hd
    by_cases h1 : k1 = k
    · simp [containsKey_cons, h1]
    · rw [getString_cons, if_neg h1] at h
      simp [containsKey_cons, h1, ih h]

end Params

/-! ## String helpers -/

theorem str_empty_append (s : String) : "" ++ s = s := by cases s; rfl

theorem str_length_pos_iff (s : String) : 0 < s.length ↔ s ≠ "" := by
  constructor
  · intro h hh
    subst hh
    exact absurd h (by simp)
  · intro h
    cases s with
    | mk l =>
      cases l with
      | nil => exact absurd rfl h
      | cons c t => simp [String.length]

/-! ## Canonical form: invariance under the signature field -/

theorem canonFold_congr (p1 p2 : Params) (ks : List String) (b : String)
    (h : ∀ k ∈ ks, Params.GetString p1 k = Params.GetString p2 k) :
    ks.foldl (fun buf k =>
      if (Params.GetString p1 k).length > 0 then buf ++ k ++ "=" ++ Params.GetString p1 k ++ "&"
      else buf) b
    = ks.foldl (fun buf k =>
      if (Params.GetString p2 k).length > 0 then buf ++ k ++ "=" ++ Params.GetString p2 k ++ "&"
      else buf) b := by
  induction ks generalizing b with
  | nil => rfl
  | cons hd t ih =>
    have hh := h hd (List.mem_cons_self hd t)
    rw [List.foldl_cons, List.foldl_cons, hh]
    exact ih _ (fun k hk => h k (List.mem_cons_of_mem hd hk))

theorem canonical_set_sign (c : Client) (p : Params) (v : String) :
    c.canonical (Params.SetString p "sign" v) = c.canonical p := by
  have hkeys : ((Params.SetString p "sign" v).map Prod.fst).filter (fun k => k != "sign")
      = (p.map Prod.fst).filter (fun k => k != "sign") := by
    rw [Params.keys_set]
    by_cases h : Params.ContainsKey p "sign"
    · rw [if_pos h]
    · rw [if_neg h, List.filter_append]
      simp
  simp only [Client.canonical]
  rw [hkeys]
  have hget : ∀ k ∈ sortStrings ((p.map Prod.fst).filter (fun k => k != "sign")),
      Params.GetString (Params.SetString p "sign" v) k = Params.GetString p k := by
    intro k hk
    have hk2 : k ∈ (p.map Prod.fst).filter (fun k => k != "sign") :=
      ((List.perm_insertionSort strLe _).mem_iff).mp hk
    have hk3 : k ≠ "sign" := by
      have := (List.mem_filter.mp hk2).2
      simpa using this
    exact Params.getString_set_other p "sign" v k hk3
  rw [canonFold_congr (Params.SetString p "sign" v) p _ "" hget]

theorem sign_set_sign (c : Client) (p : Params) (v : String) :
    c.Sign (Params.SetString p "sign" v) = c.Sign p := by
  simp only [Client.Sign, canonical_set_sign]

theorem sign_then_valid (c : Client) (p : Params) :
    c.ValidSign (Params.SetString p "sign" (c.Sign p)) = true := by
  have h1 : Params.ContainsKey (Params.SetString p "sign" (c.Sign p)) "sign" = true :=
    (Params.containsKey_set_iff p "sign" (c.Sign p) "sign").mpr (Or.inr rfl)
  simp [Client.ValidSign, SignKey, h1, Params.getString_set_self, sign_set_sign]

/-! ## The byte-wise order is total and transitive -/

theorem bytesLe_total : ∀ a b : List Nat, bytesLe a b = true ∨ bytesLe b a = true := by
  intro a
  induction a with
  | nil => intro b; left; rfl
  | cons x xs ih =>
    intro b
    cases b with
    | nil => right; rfl
    | cons y ys =>
      rcases Nat.lt_trichotomy x y with h | h | h
      · left; simp [bytesLe, h]
      · subst h
        have hn : ¬ x < x := Nat.lt_irrefl x
        rcases ih ys with h2 | h2
        · left; simp [bytesLe, hn, h2]
        · right; simp [bytesLe, hn, h2]
      · right; simp [bytesLe, h]

theorem bytesLe_trans :
    ∀ a b c : List Nat, bytesLe a b = true → bytesLe b c = true → bytesLe a c = true := by
  intro a
  induction a with
  | nil => intros; rfl
  | cons x xs ih =>
    intro b c h1 h2
    cases b with
    | nil => simp [bytesLe] at h1
    | cons y ys =>
      cases c with
      | nil => simp [bytesLe] at h2
      | cons z zs =>
        rcases Nat.lt_trichotomy x y with hxy | hxy | hxy
        · rcases Nat.lt_trichotomy y z with hyz | hyz | hyz
          · simp [bytesLe, Nat.lt_trans hxy hyz]
          · subst hyz
            simp [bytesLe, hxy]
          · simp [bytesLe, Nat.lt_asymm hyz, hyz] at h2
        · subst hxy
          rcases Nat.lt_trichotomy x z with hxz | hxz | hxz
          · simp [bytesLe, hxz]
          · subst hxz
            have hn : ¬ x < x := Nat.lt_irrefl x
            simp [bytesLe, hn] at h1 h2 ⊢
            exact ih _ _ h1 h2
          · simp [bytesLe, Nat.lt_asymm hxz, hxz] at h2
        · simp [bytesLe, Nat.lt_asymm hxy, hxy] at h1

instance : IsTotal String strLe := ⟨fun a b => bytesLe_total (strBytes a) (strBytes b)⟩

instance : IsTrans String strLe :=
  ⟨fun a b c h1 h2 => bytesLe_trans (strBytes a) (strBytes b) (strBytes c) h1 h2⟩

/-! ## The source canonicalization equals the specification form -/

theorem joinAmp_cons_ne (s : String) (l : List String) (h : l ≠ []) :
    joinAmp (s :: l) = s ++ "&" ++ joinAmp l := by
  cases l with
  | nil => exact absurd rfl h
  | cons t r => rfl

theorem foldAmp (p : Params) (a : String) :
    ∀ (ks : List String) (b : String),
      (ks.foldl (fun buf k =>
        if (Params.GetString p k).length > 0 then buf ++ k ++ "=" ++ Params.GetString p k ++ "&"
        else buf) b) ++ "key=" ++ a
      = b ++ joinAmp (((ks.filter (fun k => Params.GetString p k != "")).map
          (fun k => k ++ "=" ++ Params.GetString p k)) ++ ["key=" ++ a]) := by
  intro ks
  induction ks with
  | nil =>
    intro b
    simp only [List.foldl_nil, List.filter_nil, List.map_nil, List.nil_append, joinAmp]
    rw [String.append_assoc]
  | cons hd t ih =>
    intro b
    by_cases h : Params.GetString p hd = ""
    · have hlen : ¬((Params.GetString p hd).length > 0) := by
        rw [h]
        simp
      have hfil : (Params.GetString p hd != "") = false := by simp [h]
      simp only [List.foldl_cons, List.filter_cons, hfil]
      rw [if_neg hlen]
      simp only [Bool.false_eq_true, if_false]
      exact ih b
    · have hlen : (Params.GetString p hd).length > 0 := by
        rw [gt_iff_lt, str_length_pos_iff]
        exact h
      have hfil : (Params.GetString p hd != "") = true := by simp [h]
      simp only [List.foldl_cons, List.filter_cons, hfil, if_true, List.map_cons,
        List.cons_append]
      rw [if_pos hlen, ih, joinAmp_cons_ne _ _ (by simp)]
      simp [String.append_assoc]

theorem canonical_eq_spec (c : Client) (p : Params) :
    c.canonical p = canonicalSpec c.account.apiKey p := by
  simp only [Client.canonical, canonicalSpec]
  rw [foldAmp p c.account.apiKey _ ""]
  exact str_empty_append _

/-! ## Claims -/

/-- C1: for every ParameterSet `p` and every Client whose `signType` is MD5
or HMAC-SHA256, computing `sign = Sign p` and storing it under the `sign`
key yields a set on which `ValidSign` returns true (sign-then-verify
round-trip for both algorithm variants). -/
theorem sign_and_attach_verifies (c : Client) (p : Params)
    (h : c.signType = MD5 ∨ c.signType = HMACSHA256) :
    c.ValidSign (Params.SetString p "sign" (c.Sign p)) = true :=
  sign_then_valid c p

/-- Witness for C1 at a concrete MD5 client and concrete params. -/
theorem sign_and_attach_verifies_witness :
    (wClient.signType = MD5 ∨ wClient.signType = HMACSHA256)
    ∧ wClient.ValidSign
        (Params.SetString [("body", "test")] "sign" (wClient.Sign [("body", "test")])) = true :=
  ⟨Or.inl rfl, sign_and_attach_verifies wClient [("body", "test")] (Or.inl rfl)⟩

/-- C2: the canonical string hashed by `Sign` takes all keys except `sign`
in ascending byte-wise lexicographic order, renders `key=value&` only for
non-empty values, and ends with `key=<apiKey>` with no trailing separator;
in particular `a=1`, `b=""` with secret `k` canonicalizes to `a=1&key=k`. -/
theorem canonical_form_spec :
    (∀ (c : Client) (p : Params), c.canonical p = canonicalSpec c.account.apiKey p)
    ∧ (∀ l : List String, List.Sorted strLe (sortStrings l) ∧ (sortStrings l).Perm l)
    ∧ (NewClient (NewAccount "x" "y" "k" false)).canonical [("a", "1"), ("b", "")] = "a=1&key=k" :=
  ⟨canonical_eq_spec,
   fun l => ⟨List.sorted_insertionSort strLe l, List.perm_insertionSort strLe l⟩,
   by decide⟩

/-- C8: `Sign` is agnostic to the signature field: signing with `sign` set
to any value equals signing without it, so re-signing is idempotent. -/
theorem sign_ignores_sign_field (c : Client) (p : Params) (v : String) :
    c.Sign (Params.SetString p "sign" v) = c.Sign p
    ∧ c.Sign (Params.SetString p "sign" (c.Sign p)) = c.Sign p :=
  ⟨sign_set_sign c p v, sign_set_sign c p (c.Sign p)⟩

/-- C4 counterexample: a stored `sign` value that differs from the correct
signature only in letter case (its upper-casing is the correct signature)
is rejected by `ValidSign` — the comparison does not normalize case. -/
theorem validSign_case_insensitive_cex :
    (let p : Params := [("a", "1"), ("sign", asciiLower (c4Client.Sign [("a", "1")]))]
     asciiUpper (Params.GetString p "sign") = c4Client.Sign p
       ∧ Params.GetString p "sign" ≠ c4Client.Sign p
       ∧ c4Client.ValidSign p = false) := by decide

/-- C4 amended: `ValidSign` compares the stored `sign` value to the
recomputed signature by exact string equality (only the computed side is
upper-cased, inside `Sign`); it accepts exactly when the field is present
and equals the recomputed signature verbatim. -/
theorem validSign_exact_comparison (c : Client) (p : Params) :
    c.ValidSign p = true ↔
      (Params.ContainsKey p SignKey = true ∧ Params.GetString p SignKey = c.Sign p) := by
  unfold Client.ValidSign
  by_cases h : Params.ContainsKey p SignKey = true
  · simp [h]
  · have hf : Params.ContainsKey p SignKey = false := by
      revert h
      cases Params.ContainsKey p SignKey <;> simp
    simp [hf]

/-- C9: a Client whose `signType` is neither MD5 nor HMAC-SHA256 produces
the empty string as signature, with no error; in particular any client
configured through `SetSignType` with an unrecognized value does. -/
theorem unknown_signType_empty_sign (c : Client) (p : Params)
    (h1 : c.signType ≠ MD5) (h2 : c.signType ≠ HMACSHA256) :
    c.Sign p = "" ∧ ∀ t, t ≠ MD5 → t ≠ HMACSHA256 → (c.SetSignType t).Sign p = "" := by
  have main : ∀ (d : Client), d.signType ≠ MD5 → d.signType ≠ HMACSHA256 → d.Sign p = "" := by
    intro d g1 g2
    simp only [Client.Sign]
    rw [if_neg g1, if_neg g2]
    rfl
  exact ⟨main c h1 h2, fun t ht1 ht2 => main (c.SetSignType t) ht1 ht2⟩

/-- Witness for C9 at a concrete client with `signType` set to `SHA1`. -/
theorem unknown_signType_empty_sign_witness :
    (wBadClient.signType ≠ MD5 ∧ wBadClient.signType ≠ HMACSHA256)
    ∧ wBadClient.Sign [("a", "1")] = "" :=
  ⟨⟨by decide, by decide⟩,
   (unknown_signType_empty_sign wBadClient [("a", "1")] (by decide) (by decide)).1⟩

/-- C5: `fillRequestData` in standard mode adds exactly the keys `appid`,
`mch_id`, `sign_type`, `nonce_str` and `sign`; in merchant-to-wallet mode
it adds `mch_appid`, `mchid`, `nonce_str` and `sign` and not `sign_type`;
in both modes `sign` is computed last over the final set minus the `sign`
field, so the returned set satisfies `ValidSign`. -/
theorem fillRequestData_fields (c : Client) (nonce : String) (p : Params) :
    (∀ k, Params.ContainsKey (c.fillRequestData nonce p []) k = true ↔
        (Params.ContainsKey p k = true
          ∨ k ∈ (["appid", "mch_id", "sign_type", "nonce_str", "sign"] : List String)))
    ∧ (∀ k, Params.ContainsKey (c.fillRequestData nonce p [MchToCashTp]) k = true ↔
        (Params.ContainsKey p k = true
          ∨ k ∈ (["mch_appid", "mchid", "nonce_str", "sign"] : List String)))
    ∧ Params.GetString (c.fillRequestData nonce p []) "sign"
        = c.Sign (c.fillRequestData nonce p [])
    ∧ Params.GetString (c.fillRequestData nonce p [MchToCashTp]) "sign"
        = c.Sign (c.fillRequestData nonce p [MchToCashTp])
    ∧ c.ValidSign (c.fillRequestData nonce p []) = true
    ∧ c.ValidSign (c.fillRequestData nonce p [MchToCashTp]) = true := by
  have hcond1 : ¬(([] : List String).length = 1 ∧ ([] : List String).headD "" = MchToCashTp) := by
    simp
  have hcond2 : ([MchToCashTp].length = 1 ∧ [MchToCashTp].headD "" = MchToCashTp) := by
    simp
  simp only [Client.fillRequestData, if_neg hcond1, if_pos hcond2]
  refine ⟨?_, ?_, ?_, ?_, ?_, ?_⟩
  · intro k
    simp only [Params.containsKey_set_iff, List.mem_cons, List.not_mem_nil, or_false]
    tauto
  · intro k
    simp only [Params.containsKey_set_iff, List.mem_cons, List.not_mem_nil, or_false]
    tauto
  · rw [Params.getString_set_self, sign_set_sign]
  · rw [Params.getString_set_self, sign_set_sign]
  · exact sign_then_valid c _
  · exact sign_then_valid c _

/-- C6: `postWithCert` fails immediately with the no-certificate error
when the Account has nil certificate material — no request descriptor is
produced, so no network I/O happens, the params are untouched, and no
fallback to the unauthenticated path is attempted. -/
theorem postWithCert_nil_cert_fails (c : Client) (url : String) (p : Params) (nonce : String)
    (payTp : List String) (h : c.account.certData = none) :
    c.postWithCertStep url p nonce payTp = HttpAttempt.failed "证书数据为空" := by
  simp [Client.postWithCertStep, h]

/-- Witness for C6 at a concrete certificate-less client. -/
theorem postWithCert_nil_cert_fails_witness :
    wClient.account.certData = none
    ∧ wClient.postWithCertStep "https://api.mch.weixin.qq.com/secapi/pay/refund" [] "n" []
        = HttpAttempt.failed "证书数据为空" :=
  ⟨rfl, postWithCert_nil_cert_fails wClient
    "https://api.mch.weixin.qq.com/secapi/pay/refund" [] "n" [] rfl⟩

/-- C7: `DownloadBill` and `DownloadFundFlow` branch on the first
character of the raw payload: a payload starting with the XML open angle
bracket is decoded through the XML-to-map codec and returned, any other
payload is wrapped as a synthetic success map carrying the raw payload in
`data`; the generic response interpreter is not involved. -/
theorem download_first_char_branch (c : Client) (xmlToMap : String → Params) (body : String)
    (err : Option String) :
    (startsWithLt body = true →
        c.downloadBillHandle xmlToMap body err = (xmlToMap body, err)
        ∧ c.downloadFundFlowHandle xmlToMap body err = (xmlToMap body, err))
    ∧ (startsWithLt body = false →
        c.downloadBillHandle xmlToMap body err
          = ([("return_code", Success), ("return_msg", "ok"), ("data", body)], err)
        ∧ c.downloadFundFlowHandle xmlToMap body err
          = ([("return_code", Success), ("return_msg", "ok"), ("data", body)], err)) := by
  constructor
  · intro h
    constructor <;> simp [Client.downloadBillHandle, Client.downloadFundFlowHandle, h]
  · intro h
    refine ⟨?_, ?_⟩ <;>
      · simp only [Client.downloadBillHandle, Client.downloadFundFlowHandle, h,
          Bool.false_eq_true, if_false]
        rfl

/-- Witness for C7 at a concrete XML payload and a concrete CSV payload. -/
theorem download_first_char_branch_witness :
    wClient.downloadBillHandle c7Codec "<xml>err</xml>" none = (c7Codec "<xml>err</xml>", none)
    ∧ wClient.downloadBillHandle c7Codec "csv,data" none
      = ([("return_code", Success), ("return_msg", "ok"), ("data", "csv,data")], none) :=
  ⟨((download_first_char_branch wClient c7Codec "<xml>err</xml>" none).1 (by decide)).1,
   ((download_first_char_branch wClient c7Codec "csv,data" none).2 (by decide)).1⟩

/-- C10: when the POST in `DownloadBill`/`DownloadFundFlow` fails (empty
body, non-nil error), the returned map is not nil: it is the synthetic
success-shaped map with empty `data`, paired with the error, so a caller
ignoring the error sees an apparent success. -/
theorem download_error_returns_success_map (c : Client) (xmlToMap : String → Params)
    (e : String) :
    c.downloadBillHandle xmlToMap "" (some e)
        = ([("return_code", Success), ("return_msg", "ok"), ("data", "")], some e)
    ∧ c.downloadFundFlowHandle xmlToMap "" (some e)
        = ([("return_code", Success), ("return_msg", "ok"), ("data", "")], some e)
    ∧ ([("return_code", Success), ("return_msg", "ok"), ("data", "")] : Params) ≠ [] :=
  ⟨rfl, rfl, by decide⟩

/-- C3: `processResponseXml` errs exactly when the decoded map lacks
`return_code`, or carries a value other than SUCCESS or FAIL, or carries
SUCCESS with verification requested and a failing signature check; a FAIL
response is returned as-is without a signature check, and a SUCCESS
response with the opt-out flag `[false]` is returned unverified. -/
theorem processResponse_trust_decision (c : Client) (decoded : Params) (flags : List Bool) :
    (exceptIsError (c.processResponseXml decoded flags) = true ↔
      (Params.ContainsKey decoded "return_code" = false
        ∨ (Params.GetString decoded "return_code" ≠ Success
            ∧ Params.GetString decoded "return_code" ≠ Fail)
        ∨ (Params.GetString decoded "return_code" = Success ∧ flags ≠ [false]
            ∧ c.ValidSign decoded = false)))
    ∧ (Params.GetString decoded "return_code" = Fail →
        c.processResponseXml decoded flags = Except.ok decoded)
    ∧ (Params.GetString decoded "return_code" = Success → flags = [false] →
        c.processResponseXml decoded flags = Except.ok decoded) := by
  have hsf : (Success : String) ≠ Fail := by decide
  have hfe : (Fail : String) ≠ "" := by decide
  have hse : (Success : String) ≠ "" := by decide
  have hfs : (Fail : String) ≠ Success := fun hh => hsf hh.symm
  refine ⟨?_, ?_, ?_⟩
  · by_cases hc : Params.ContainsKey decoded "return_code" = true
    · by_cases hf : Params.GetString decoded "return_code" = Fail
      · have hns : Params.GetString decoded "return_code" ≠ Success := by
          rw [hf]; exact fun hh => hsf hh.symm
        simp [Client.processResponseXml, exceptIsError, hc, hf, hns, hfs]
      · by_cases hs : Params.GetString decoded "return_code" = Success
        · by_cases hfl : flags = [false]
          · simp [Client.processResponseXml, exceptIsError, hc, hf, hs, hfl, hsf]
          · by_cases hv : c.ValidSign decoded = true
            · simp [Client.processResponseXml, exceptIsError, hc, hf, hs, hfl, hv, hsf]
            · have hv2 : c.ValidSign decoded = false := by
                revert hv
                cases c.ValidSign decoded <;> simp
              simp [Client.processResponseXml, exceptIsError, hc, hf, hs, hfl, hv2, hsf]
        · simp [Client.processResponseXml, exceptIsError, hc, hf, hs]
    · have hcf : Params.ContainsKey decoded "return_code" = false := by
        revert hc
        cases Params.ContainsKey decoded "return_code" <;> simp
      simp [Client.processResponseXml, exceptIsError, hcf]
  · intro hf
    have hc : Params.ContainsKey decoded "return_code" = true :=
      Params.contains_of_getString_ne decoded "return_code" (by rw [hf]; exact hfe)
    simp [Client.processResponseXml, hc, hf]
  · intro hs hfl
    have hc : Params.ContainsKey decoded "return_code" = true :=
      Params.contains_of_getString_ne decoded "return_code" (by rw [hs]; exact hse)
    subst hfl
    simp [Client.processResponseXml, hc, hs, hsf]

/-- Witness for C3: a concrete FAIL response map is returned as-is. -/
theorem processResponse_trust_decision_witness :
    wClient.processResponseXml c3FailMap [] = Except.ok c3FailMap :=
  (processResponse_trust_decision wClient c3FailMap []).2.1 rfl
